import Mathlib

/-!
Verification of the query-construction and batch-iteration logic of the
`commenter` robot (`robots/commenter/main.go`).

Go strings are embedded as lists of characters (`Str`).  The Go standard
library pieces the program uses (`strings.Contains`, `strings.Join`,
`strings.ReplaceAll`, `rand.Shuffle`, `time.Now`, RFC3339 formatting) are
embedded as executable Lean functions or, for the clock and the RFC3339
formatter, as explicit parameters standing for the effectful inputs.
The GitHub client interface is embedded as a structure of result-returning
functions; the comment-creation capability additionally yields a log of the
calls made, so that theorems can speak about which calls happened.
-/

namespace Commenter

/-- Go strings, embedded as lists of characters. -/
abbrev Str := List Char

/-- The space character used by `strings.Join(parts, " ")`. -/
def spChar : Char := ' '

/-- The newline character replaced by `strings.ReplaceAll(query, "\n", " ")`. -/
def nlChar : Char := Char.ofNat 10

/-- `strings.Contains(s, sub)`: `sub` occurs as a contiguous substring of `s`.
Matches Go's semantics, including `Contains(s, "") = true`. -/
def goContains (s sub : Str) : Bool :=
  match s with
  | [] => sub.isEmpty
  | c :: rest => sub.isPrefixOf (c :: rest) || goContains rest sub

/-- Number of (possibly overlapping) starting positions at which `pat`
occurs in `s`.  Used to state the "exactly one qualifier" properties. -/
def countSub (s pat : Str) : Nat :=
  match s with
  | [] => 0
  | c :: rest => (if pat.isPrefixOf (c :: rest) then 1 else 0) + countSub rest pat

/-- `strings.Join(parts, " ")`. -/
def joinSp : List Str → Str
  | [] => []
  | [p] => p
  | p :: q :: ps => p ++ spChar :: joinSp (q :: ps)

/-- `strings.ReplaceAll(query, "\n", " ")`: the pattern is a single
character, so the replacement is a character map. -/
def normalizeQuery (s : Str) : Str :=
  s.map fun ch => if ch = nlChar then spChar else ch

/-- digit character for `n < 10`. -/
def digitChar (n : Nat) : Char := Char.ofNat (48 + n)

/-- Decimal digits of `n` (fuel-based so the kernel can evaluate it). -/
def natDigitsAux : Nat → Nat → Str
  | 0, _ => []
  | fuel + 1, n =>
    if n < 10 then [digitChar n]
    else natDigitsAux fuel (n / 10) ++ [digitChar (n % 10)]

/-- Decimal representation of a natural number, as printed by `%d`. -/
def natDigits (n : Nat) : Str := natDigitsAux (n + 1) n

/-- Decimal representation of a Go `int`, as printed by `%d`. -/
def intDigits (i : Int) : Str :=
  if i < 0 then '-' :: natDigits (-i).toNat else natDigits i.toNat

/-- Numeric value of a digit string (as read by `strconv.Atoi`). -/
def digitsVal (s : Str) : Nat :=
  s.foldl (fun acc c => 10 * acc + (c.toNat - 48)) 0

/-- Split `s` at the last occurrence of `c`:
`splitLast c s = some (pre, post)` iff `s = pre ++ c :: post` with
`c ∉ post`. -/
def splitLast (c : Char) : Str → Option (Str × Str)
  | [] => none
  | x :: rest =>
    match splitLast c rest with
    | some (pre, post) => some (x :: pre, post)
    | none => if x = c then some ([], rest) else none

/-- Everything after the last newline of `s` (all of `s` when it has no
newline).  A leftmost match of a Go regexp whose `.` atoms cannot cross a
newline starts inside this suffix. -/
def afterLastNL (s : Str) : Str :=
  match splitLast nlChar s with
  | some (_, post) => post
  | none => s

/-- The token `"issues"` of the URL regexp. -/
def tokIssues : Str := "issues".toList

/-- The token `"pull"` of the URL regexp. -/
def tokPull : Str := "pull".toList

/--
Submatch extraction for the regexp `.+/(.+)/(.+)/(issues|pull)/(\d+)$` on
the part `p` of the URL that precedes `/(issues|pull)/(digits)`.

The regexp's `$` forces the digit group to be the text after the last
slash and `issues|pull` the segment before it (neither group can contain a
slash).  In `p`, the engine picks the leftmost start (`.` does not match a
newline, so the match starts after the last newline) and then gives the
leading greedy `.+` as much as possible, then the second `.+`: so the two
separator slashes are chosen as late as possible subject to all three
groups being nonempty.  `s1`/`s2` below are those separator positions.
-/
def findOrgRepo (p : Str) : Option (Str × Str) :=
  let q := afterLastNL p
  let n := q.length
  let slashes := (List.range n).filter fun i => q.getD i spChar = '/'
  let cand1 := slashes.filter fun i =>
    1 ≤ i ∧ slashes.any fun j => decide (i + 2 ≤ j) && decide (j + 2 ≤ n)
  match cand1.getLast? with
  | none => none
  | some s1 =>
    let cand2 := slashes.filter fun j => s1 + 2 ≤ j ∧ j + 2 ≤ n
    match cand2.getLast? with
    | none => none
    | some s2 =>
      let org := (q.drop (s1 + 1)).take (s2 - s1 - 1)
      let repo := q.drop (s2 + 1)
      some (org, repo)

/-- Message `fmt.Errorf("failed to parse: %s", url)`. -/
def failedToParseMsg (url : Str) : Str := "failed to parse: ".toList ++ url

/-- Error returned by `strconv.Atoi` when the digits overflow an `int`
(message text abbreviated; the program only propagates it). -/
def atoiRangeMsg : Str := "value out of range".toList

/--
`parseHTMLURL(url)`: match `.+/(.+)/(.+)/(issues|pull)/(\d+)$` against the
URL and return (org, repo, number).  The digit group is the text after the
last slash, `issues|pull` the segment before it, and org/repo come from
`findOrgRepo` on the remaining prefix.  `strconv.Atoi` fails on values
that overflow a 64-bit `int`.
-/
def parseHTMLURL (url : Str) : Except Str (Str × Str × Int) :=
  match splitLast '/' url with
  | none => Except.error (failedToParseMsg url)
  | some (p1, e) =>
    if e ≠ [] ∧ e.all Char.isDigit then
      match splitLast '/' p1 with
      | none => Except.error (failedToParseMsg url)
      | some (p2, d) =>
        if d = tokIssues ∨ d = tokPull then
          match findOrgRepo p2 with
          | some (org, repo) =>
            if digitsVal e < 2 ^ 63 then Except.ok (org, repo, (digitsVal e : Int))
            else Except.error atoiRangeMsg
          | none => Except.error (failedToParseMsg url)
        else Except.error (failedToParseMsg url)
    else Except.error (failedToParseMsg url)

/-- Qualifier `"archived:true"`. -/
def tokArchivedTrue : Str := "archived:true".toList

/-- Qualifier `"archived:false"`. -/
def tokArchivedFalse : Str := "archived:false".toList

/-- Qualifier `"is:closed"`. -/
def tokIsClosed : Str := "is:closed".toList

/-- Qualifier `"is:open"`. -/
def tokIsOpen : Str := "is:open".toList

/-- Qualifier `"is:locked"`. -/
def tokIsLocked : Str := "is:locked".toList

/-- Qualifier `"is:unlocked"`. -/
def tokIsUnlocked : Str := "is:unlocked".toList

/-- Qualifier head `"updated:<="`. -/
def tokUpdatedLe : Str := "updated:<=".toList

/-- Error `"archived:true requires --include-archived"`. -/
def errNeedArchived : Str := "archived:true requires --include-archived".toList

/-- Error `"archived:false conflicts with --include-archived"`. -/
def errConflictArchived : Str := "archived:false conflicts with --include-archived".toList

/-- Error `"is:closed requires --include-closed"`. -/
def errNeedClosed : Str := "is:closed requires --include-closed".toList

/-- Error `"is:open conflicts with --include-closed"`. -/
def errConflictClosed : Str := "is:open conflicts with --include-closed".toList

/-- Error `"is:locked requires --include-locked"`. -/
def errNeedLocked : Str := "is:locked requires --include-locked".toList

/-- Error `"is:unlocked conflicts with --include-locked"`. -/
def errConflictLocked : Str := "is:unlocked conflicts with --include-locked".toList

/--
The list of query parts accumulated by `makeQuery` on its success path:
the normalized query, then `archived:false` / `is:open` / `is:unlocked`
for each disabled toggle, then the `updated:<=` qualifier when
`minUpdated` is nonzero.
-/
def queryParts (q : Str) (includeArchived includeClosed includeLocked : Bool)
    (minUpdated now : Int) (fmt3339 : Int → Str) : List Str :=
  [q]
    ++ (if includeArchived = false then [tokArchivedFalse] else [])
    ++ (if includeClosed = false then [tokIsOpen] else [])
    ++ (if includeLocked = false then [tokIsUnlocked] else [])
    ++ (if minUpdated ≠ 0 then [tokUpdatedLe ++ fmt3339 (now - minUpdated)] else [])

/--
`makeQuery(query, includeArchived, includeClosed, includeLocked, minUpdated)`.

`now` stands for `time.Now()` and `fmt3339` for Go's
`Time.Format(time.RFC3339)` on `now.Add(-minUpdated)`; both are explicit
parameters because they are effectful/stdlib inputs of the Go function.
The conflict checks run in the source's order (archived, closed, locked),
each on the newline-normalized query, and the parts are appended exactly
when the corresponding toggle is disabled.
-/
def makeQuery (query : Str) (includeArchived includeClosed includeLocked : Bool)
    (minUpdated now : Int) (fmt3339 : Int → Str) : Except Str Str :=
  let q := normalizeQuery query
  if includeArchived = false ∧ goContains q tokArchivedTrue = true then
    Except.error errNeedArchived
  else if includeArchived = true ∧ goContains q tokArchivedFalse = true then
    Except.error errConflictArchived
  else if includeClosed = false ∧ goContains q tokIsClosed = true then
    Except.error errNeedClosed
  else if includeClosed = true ∧ goContains q tokIsOpen = true then
    Except.error errConflictClosed
  else if includeLocked = false ∧ goContains q tokIsLocked = true then
    Except.error errNeedLocked
  else if includeLocked = true ∧ goContains q tokIsUnlocked = true then
    Except.error errConflictLocked
  else
    Except.ok (joinSp (queryParts q includeArchived includeClosed includeLocked
      minUpdated now fmt3339))

/-- A search match (`github.Issue`); the batch runner reads only the
`HTMLURL` and `Title` fields, so only those are embedded. -/
structure Issue where
  htmlURL : Str
  title : Str
deriving DecidableEq, Inhabited

/-- The per-item `meta` record handed to the comment-producing function. -/
structure Meta where
  number : Int
  org : Str
  repo : Str
  issue : Issue
deriving DecidableEq

/-- One invocation of `CreateComment(org, repo, number, comment)`. -/
abbrev Call := Str × Str × Int × Str

/-- The `client` interface: `FindIssuesWithOrg` and `CreateComment`.
`CreateComment` returns `some err` on failure and `none` on success. -/
structure Client where
  findIssuesWithOrg : Str → Str → Str → Bool → Except Str (List Issue)
  createComment : Str → Str → Int → Str → Option Str

/-- `makeCommenter(comment, false)`: the literal variant always returns
the configured comment and never fails. -/
def literalCommenter (comment : Str) : Meta → Except Str Str :=
  fun _ => Except.ok comment

/-- Message `"Failed to parse %s: %v"`. -/
def msgFailedParse (url e : Str) : Str :=
  "Failed to parse ".toList ++ url ++ ": ".toList ++ e

/-- Message `"Failed to create comment for %s/%s#%d: %v"`. -/
def msgFailedCreate (org repo : Str) (number : Int) (e : Str) : Str :=
  "Failed to create comment for ".toList ++ org ++ "/".toList ++ repo
    ++ "#".toList ++ intDigits number ++ ": ".toList ++ e

/-- Message `"Failed to apply comment to %s/%s#%d: %v"`. -/
def msgFailedApply (org repo : Str) (number : Int) (e : Str) : Str :=
  "Failed to apply comment to ".toList ++ org ++ "/".toList ++ repo
    ++ "#".toList ++ intDigits number ++ ": ".toList ++ e

/-- The prefix added by `fmt.Errorf("search failed: %w", err)`. -/
def searchFailedPre : Str := "search failed: ".toList

/-- `fmt.Errorf("encoutered %d failures: %v", len(problems), problems)`
(typo as in the source); `%v` renders a string slice as
`[m1 m2 ...]`. -/
def encouteredMsg (problems : List Str) : Str :=
  "encoutered ".toList ++ natDigits problems.length ++ " failures: [".toList
    ++ joinSp problems ++ "]".toList

/--
The tail of one loop iteration, after URL parsing: invoke the
comment-producing function, and on success submit the comment.  `probs`
carries a parse-failure message when parsing failed (the source does NOT
`continue` in that case: it falls through with zero values).  Returns the
failure messages recorded for this item and the `CreateComment` calls it
made.
-/
def processItemFrom (cc : Str → Str → Int → Str → Option Str)
    (commenter : Meta → Except Str Str) (i : Issue) (probs : List Str)
    (org repo : Str) (number : Int) : List Str × List Call :=
  match commenter ⟨number, org, repo, i⟩ with
  | Except.error e => (probs ++ [msgFailedCreate org repo number e], [])
  | Except.ok comment =>
    match cc org repo number comment with
    | some e => (probs ++ [msgFailedApply org repo number e], [(org, repo, number, comment)])
    | none => (probs, [(org, repo, number, comment)])

/-- One loop iteration of `run` for a single issue (lines 231-251 of the
source): parse the URL; on failure record a message and fall through with
`("", "", 0)`, exactly as the Go code does. -/
def processItem (cc : Str → Str → Int → Str → Option Str)
    (commenter : Meta → Except Str Str) (i : Issue) : List Str × List Call :=
  match parseHTMLURL i.htmlURL with
  | Except.error e => processItemFrom cc commenter i [msgFailedParse i.htmlURL e] [] [] 0
  | Except.ok (org, repo, number) => processItemFrom cc commenter i [] org repo number

/-- The `for n, i := range issues` loop with the ceiling check
`if ceiling > 0 && n == ceiling { break }`; `n` is the running index. -/
def runLoop (cc : Str → Str → Int → Str → Option Str)
    (commenter : Meta → Except Str Str) (ceiling : Int) :
    Nat → List Issue → List Str × List Call
  | _, [] => ([], [])
  | n, i :: rest =>
    if ceiling > 0 ∧ (n : Int) = ceiling then ([], [])
    else
      let r := processItem cc commenter i
      let next := runLoop cc commenter ceiling (n + 1) rest
      (r.1 ++ next.1, r.2 ++ next.2)

/-- The loop without a ceiling: every issue is processed. -/
def processAll (cc : Str → Str → Int → Str → Option Str)
    (commenter : Meta → Except Str Str) : List Issue → List Str × List Call
  | [] => ([], [])
  | i :: rest =>
    let r := processItem cc commenter i
    let next := processAll cc commenter rest
    (r.1 ++ next.1, r.2 ++ next.2)

/-- `issues[i], issues[j] = issues[j], issues[i]` on a list (both reads
happen before the writes; at every call site both indices are in
bounds, where `List.set`/`getD` agree with Go indexing). -/
def swapIdx (l : List Issue) (i j : Nat) : List Issue :=
  let a := l.getD i default
  let b := l.getD j default
  (l.set i b).set j a

/-- The loop of `rand.Shuffle(n, swap)`:
`for i := n - 1; i > 0; i-- { j := rand in [0, i]; swap(i, j) }`.
`draws k` stands for the random draw when the counter is `k`; it is
reduced mod `k + 1` exactly as the PRNG bounds it. -/
def shuffleSteps (draws : Nat → Nat) : Nat → List Issue → List Issue
  | 0, l => l
  | i + 1, l => shuffleSteps draws i (swapIdx l (i + 1) (draws (i + 1) % (i + 2)))

/-- `rand.Shuffle(len(issues), swap)` with random draws `draws`. -/
def shuffleGo (draws : Nat → Nat) (l : List Issue) : List Issue :=
  shuffleSteps draws (l.length - 1) l

/-- The issue list actually iterated: shuffled when `--random` is set. -/
def shuffledIf (random : Bool) (draws : Nat → Nat) (issues : List Issue) : List Issue :=
  if random then shuffleGo draws issues else issues

/--
`run(c, org, query, sort, asc, random, commenter, ceiling)`.

`draws` models the global PRNG consumed by `rand.Shuffle`.  The first
component is the function's error result; the second is the log of
`CreateComment` calls the run made (the observable mutations).
-/
def run (c : Client) (org query sortStr : Str) (asc random : Bool)
    (draws : Nat → Nat) (commenter : Meta → Except Str Str) (ceiling : Int) :
    Except Str Unit × List Call :=
  match c.findIssuesWithOrg org query sortStr asc with
  | Except.error e => (Except.error (searchFailedPre ++ e), [])
  | Except.ok issues0 =>
    let issues := shuffledIf random draws issues0
    let pr := runLoop c.createComment commenter ceiling 0 issues
    (if pr.1.length > 0 then Except.error (encouteredMsg pr.1) else Except.ok (), pr.2)

/-- The characters a Go RFC3339 rendering can contain: digits, date/time
separators, `T`, `Z` and the offset sign. -/
def rfcChars : Str := "0123456789TZ:+-".toList

/-- The RFC3339 formatter parameter is faithful to `Time.Format(time.RFC3339)`:
every character it emits is an RFC3339 character (in particular it emits no
space and no letter occurring in a query qualifier). -/
def fmt3339WellFormed (fmt3339 : Int → Str) : Prop :=
  ∀ t : Int, ∀ ch ∈ fmt3339 t, ch ∈ rfcChars

/-- Negations of the six conflict checks of `makeQuery`, in source order. -/
def mqConds (q : Str) (includeArchived includeClosed includeLocked : Bool) : Prop :=
  ¬(includeArchived = false ∧ goContains q tokArchivedTrue = true)
  ∧ ¬(includeArchived = true ∧ goContains q tokArchivedFalse = true)
  ∧ ¬(includeClosed = false ∧ goContains q tokIsClosed = true)
  ∧ ¬(includeClosed = true ∧ goContains q tokIsOpen = true)
  ∧ ¬(includeLocked = false ∧ goContains q tokIsLocked = true)
  ∧ ¬(includeLocked = true ∧ goContains q tokIsUnlocked = true)

/-- Equality of `Except` results is decidable; lets concrete runs be
checked by evaluation. -/
instance exceptDecEq {ε α : Type} [DecidableEq ε] [DecidableEq α] :
    DecidableEq (Except ε α)
  | Except.error e, Except.error f =>
    if h : e = f then Decidable.isTrue (by rw [h])
    else Decidable.isFalse fun hc => h (Except.error.inj hc)
  | Except.error _, Except.ok _ => Decidable.isFalse fun hc => Except.noConfusion hc
  | Except.ok _, Except.error _ => Decidable.isFalse fun hc => Except.noConfusion hc
  | Except.ok a, Except.ok b =>
    if h : a = b then Decidable.isTrue (by rw [h])
    else Decidable.isFalse fun hc => h (Except.ok.inj hc)

/-! ### Concrete test fixtures -/

/-- The empty Go string. -/
def emptyStr : Str := []

/-- A match whose URL parses to `(o1, r1, 1)`. -/
def issue1 : Issue := ⟨"https://github.com/o1/r1/issues/1".toList, "t1".toList⟩

/-- A match whose URL parses to `(o2, r2, 2)`. -/
def issue2 : Issue := ⟨"https://github.com/o2/r2/issues/2".toList, "t2".toList⟩

/-- A match whose URL parses to `(o3, r3, 3)`. -/
def issue3 : Issue := ⟨"https://github.com/o3/r3/issues/3".toList, "t3".toList⟩

/-- A match whose URL does not match the regexp. -/
def issueBad : Issue := ⟨"https://example.com/nope".toList, "bad".toList⟩

/-- A comment-creation capability that always succeeds. -/
def ccAlwaysOk : Str → Str → Int → Str → Option Str := fun _ _ _ _ => none

/-- The configured `--comment` text used in concrete runs. -/
def testComment : Str := "hello".toList

/-- A fixed PRNG outcome. -/
def draws0 : Nat → Nat := fun _ => 0

/-- A constant RFC3339 formatter used in concrete runs. -/
def fmt0 : Int → Str := fun _ => "2026-01-01T00:00:00Z".toList

/-- org of `issue1` as parsed from its URL. -/
def orgA : Str := "o1".toList

/-- repo of `issue1` as parsed from its URL. -/
def repoA : Str := "r1".toList

/-- org of `issue2` as parsed from its URL. -/
def orgB : Str := "o2".toList

/-- repo of `issue2` as parsed from its URL. -/
def repoB : Str := "r2".toList

/-- A client whose search yields three well-formed matches. -/
def clientThree : Client :=
  ⟨fun _ _ _ _ => Except.ok [issue1, issue2, issue3], ccAlwaysOk⟩

/-- A client whose search yields a malformed match followed by a
well-formed one. -/
def clientBad : Client :=
  ⟨fun _ _ _ _ => Except.ok [issueBad, issue2], ccAlwaysOk⟩

/-- A client whose search yields the two matches of the end-to-end test. -/
def clientTwo : Client :=
  ⟨fun _ _ _ _ => Except.ok [issue1, issue2], ccAlwaysOk⟩

/-- The search error of the failing-search fixture. -/
def searchErr : Str := "boom".toList

/-- A client whose search capability fails. -/
def clientSearchFail : Client :=
  ⟨fun _ _ _ _ => Except.error searchErr, ccAlwaysOk⟩

/-- Raw query `archived:true is:closed` (C3 counterexample input). -/
def qC3cex : Str := "archived:true is:closed".toList

/-- Raw query `is:issue`. -/
def qIsIssue : Str := "is:issue".toList

/-- Built query for `is:issue` with all toggles enabled. -/
def rC4cex : Str := "is:issue is:open is:unlocked".toList

/-- Built query for `is:issue` with all toggles disabled, no age filter. -/
def rC4w : Str := "is:issue archived:false is:open is:unlocked".toList

/-- Raw query already carrying an `updated:<=` qualifier (C5
counterexample input). -/
def qC5cex : Str := "updated:<=2020".toList

/-- Built query for `qC5cex` with all toggles disabled, no age filter. -/
def rC5cex : Str := "updated:<=2020 archived:false is:open is:unlocked".toList

/-- Built query for `is:issue`, toggles disabled, with the `fmt0` timestamp. -/
def rC5w : Str :=
  "is:issue archived:false is:open is:unlocked updated:<=2026-01-01T00:00:00Z".toList

/-- Raw query of the end-to-end test. -/
def qC6 : Str := "is:issue label:bug".toList

/-- Expected built query of the end-to-end test. -/
def rC6 : Str := "is:issue label:bug archived:false is:open is:unlocked".toList

/-! ### String lemmas -/

/-- `fmt0` only emits RFC3339 characters. -/
theorem fmt0_wellFormed : fmt3339WellFormed fmt0 := by
  intro t
  show ∀ ch ∈ "2026-01-01T00:00:00Z".toList, ch ∈ rfcChars
  decide

theorem isPrefixOf_nil_eq_false {pat : Str} (hne : pat ≠ []) :
    pat.isPrefixOf ([] : Str) = false := by
  cases pat with
  | nil => exact absurd rfl hne
  | cons p pt => rfl

theorem mem_of_isPrefixOf : ∀ {pat s : Str}, pat.isPrefixOf s = true →
    ∀ {c : Char}, c ∈ pat → c ∈ s := by
  intro pat
  induction pat with
  | nil => intro s _ c hc; cases hc
  | cons p pt ih =>
    intro s h c hc
    cases s with
    | nil => simp [List.isPrefixOf] at h
    | cons x xt =>
      simp only [List.isPrefixOf, Bool.and_eq_true, beq_iff_eq] at h
      rcases List.mem_cons.mp hc with rfl | hc
      · rw [h.1]; exact List.mem_cons_self x xt
      · exact List.mem_cons_of_mem _ (ih h.2 hc)

theorem goContains_eq_false_of_char {pat : Str} {ch : Char} (hc : ch ∈ pat) :
    ∀ {s : Str}, ch ∉ s → goContains s pat = false := by
  intro s
  induction s with
  | nil =>
    intro _
    cases pat with
    | nil => cases hc
    | cons p pt => rfl
  | cons x xt ih =>
    intro hs
    simp only [goContains, Bool.or_eq_false_iff]
    refine ⟨?_, ih fun h => hs (List.mem_cons_of_mem _ h)⟩
    cases hpf : pat.isPrefixOf (x :: xt) with
    | false => rfl
    | true => exact absurd (mem_of_isPrefixOf hpf hc) hs

theorem isPrefixOf_append_sepC (c : Char) :
    ∀ pat : Str, c ∉ pat → ∀ xs ys : Str,
      pat.isPrefixOf (xs ++ c :: ys) = pat.isPrefixOf xs := by
  intro pat
  induction pat with
  | nil => intro _ xs ys; simp [List.isPrefixOf]
  | cons p pt ih =>
    intro hc xs ys
    have hc' : c ∉ pt := fun h => hc (List.mem_cons_of_mem _ h)
    have hpc : (p == c) = false :=
      beq_eq_false_iff_ne.mpr fun h => hc (h ▸ List.mem_cons_self _ _)
    cases xs with
    | nil => simp [List.isPrefixOf, hpc]
    | cons x xt => simp [List.isPrefixOf, ih hc' xt ys]

theorem goContains_append_sep {pat : Str} (hne : pat ≠ []) {c : Char} (hc : c ∉ pat) :
    ∀ xs ys : Str, goContains (xs ++ c :: ys) pat = (goContains xs pat || goContains ys pat) := by
  intro xs
  induction xs with
  | nil =>
    intro ys
    have h1 : pat.isPrefixOf (c :: ys) = false := by
      have h := isPrefixOf_append_sepC c pat hc [] ys
      rwa [List.nil_append, isPrefixOf_nil_eq_false hne] at h
    cases pat with
    | nil => exact absurd rfl hne
    | cons p pt => simp [goContains, h1]
  | cons x xt ih =>
    intro ys
    have h1 : pat.isPrefixOf ((x :: xt) ++ c :: ys) = pat.isPrefixOf (x :: xt) :=
      isPrefixOf_append_sepC c pat hc (x :: xt) ys
    have e1 : goContains ((x :: xt) ++ c :: ys) pat
        = (pat.isPrefixOf ((x :: xt) ++ c :: ys) || goContains (xt ++ c :: ys) pat) := rfl
    have e2 : goContains (x :: xt) pat
        = (pat.isPrefixOf (x :: xt) || goContains xt pat) := rfl
    rw [e1, e2, h1, ih ys, Bool.or_assoc]

theorem goContains_joinSp {pat : Str} (hne : pat ≠ []) (hsp : spChar ∉ pat) :
    ∀ parts : List Str,
      goContains (joinSp parts) pat = parts.any fun p => goContains p pat := by
  intro parts
  induction parts with
  | nil =>
    cases pat with
    | nil => exact absurd rfl hne
    | cons p pt => rfl
  | cons p ps ih =>
    cases ps with
    | nil => simp [joinSp]
    | cons q qs =>
      have h1 : joinSp (p :: q :: qs) = p ++ spChar :: joinSp (q :: qs) := rfl
      rw [h1, goContains_append_sep hne hsp p (joinSp (q :: qs)), ih]
      simp

theorem countSub_append_sep {pat : Str} (hne : pat ≠ []) {c : Char} (hc : c ∉ pat) :
    ∀ xs ys : Str, countSub (xs ++ c :: ys) pat = countSub xs pat + countSub ys pat := by
  intro xs
  induction xs with
  | nil =>
    intro ys
    have h1 : pat.isPrefixOf (c :: ys) = false := by
      have h := isPrefixOf_append_sepC c pat hc [] ys
      rwa [List.nil_append, isPrefixOf_nil_eq_false hne] at h
    simp [countSub, h1]
  | cons x xt ih =>
    intro ys
    have h1 : pat.isPrefixOf ((x :: xt) ++ c :: ys) = pat.isPrefixOf (x :: xt) :=
      isPrefixOf_append_sepC c pat hc (x :: xt) ys
    have e1 : countSub ((x :: xt) ++ c :: ys) pat
        = (if pat.isPrefixOf ((x :: xt) ++ c :: ys) = true then 1 else 0)
            + countSub (xt ++ c :: ys) pat := rfl
    have e2 : countSub (x :: xt) pat
        = (if pat.isPrefixOf (x :: xt) = true then 1 else 0) + countSub xt pat := rfl
    rw [e1, e2, h1, ih ys, Nat.add_assoc]

theorem countSub_joinSp {pat : Str} (hne : pat ≠ []) (hsp : spChar ∉ pat) :
    ∀ parts : List Str,
      countSub (joinSp parts) pat = (parts.map fun p => countSub p pat).sum := by
  intro parts
  induction parts with
  | nil => simp [joinSp, countSub]
  | cons p ps ih =>
    cases ps with
    | nil => simp [joinSp]
    | cons q qs =>
      have h1 : joinSp (p :: q :: qs) = p ++ spChar :: joinSp (q :: qs) := rfl
      rw [h1, countSub_append_sep hne hsp p (joinSp (q :: qs)), ih]
      simp

theorem goContains_eq_false_iff {pat : Str} (hne : pat ≠ []) :
    ∀ s : Str, (goContains s pat = false ↔ countSub s pat = 0) := by
  intro s
  induction s with
  | nil =>
    cases pat with
    | nil => exact absurd rfl hne
    | cons p pt => simp [goContains, countSub]
  | cons x xt ih =>
    cases hpf : pat.isPrefixOf (x :: xt) <;> simp [goContains, countSub, hpf, ih]

theorem isPrefixOf_self_append : ∀ pat r : Str, pat.isPrefixOf (pat ++ r) = true := by
  intro pat
  induction pat with
  | nil => intro r; cases r <;> rfl
  | cons p pt ih => intro r; simp [List.isPrefixOf, ih r]

theorem countSub_self_append {c : Char} {pt r : Str} (h1 : c ∉ pt) (h2 : c ∉ r) :
    countSub ((c :: pt) ++ r) (c :: pt) = 1 := by
  have hpfx : (c :: pt).isPrefixOf ((c :: pt) ++ r) = true := isPrefixOf_self_append _ _
  have hz : countSub (pt ++ r) (c :: pt) = 0 := by
    refine (goContains_eq_false_iff (by simp) _).mp ?_
    refine goContains_eq_false_of_char (List.mem_cons_self c pt) ?_
    intro hmem
    rcases List.mem_append.mp hmem with h | h
    · exact h1 h
    · exact h2 h
  have e1 : countSub ((c :: pt) ++ r) (c :: pt)
      = (if (c :: pt).isPrefixOf ((c :: pt) ++ r) = true then 1 else 0)
          + countSub (pt ++ r) (c :: pt) := rfl
  rw [e1, hpfx, hz]
  rfl

theorem isPrefixOf_normalize :
    ∀ pat : Str, nlChar ∉ pat → spChar ∉ pat →
      ∀ s : Str, pat.isPrefixOf (normalizeQuery s) = pat.isPrefixOf s := by
  intro pat
  induction pat with
  | nil => intro _ _ s; simp [List.isPrefixOf]
  | cons p pt ih =>
    intro h1 h2 s
    have h1' : nlChar ∉ pt := fun h => h1 (List.mem_cons_of_mem _ h)
    have h2' : spChar ∉ pt := fun h => h2 (List.mem_cons_of_mem _ h)
    cases s with
    | nil => rfl
    | cons x xt =>
      by_cases hxn : x = nlChar
      · subst hxn
        have hp1 : (p == spChar) = false :=
          beq_eq_false_iff_ne.mpr fun h => h2 (h ▸ List.mem_cons_self _ _)
        have hp2 : (p == nlChar) = false :=
          beq_eq_false_iff_ne.mpr fun h => h1 (h ▸ List.mem_cons_self _ _)
        have hx : normalizeQuery (nlChar :: xt) = spChar :: normalizeQuery xt := by
          simp [normalizeQuery]
        have e1 : (p :: pt).isPrefixOf (spChar :: normalizeQuery xt)
            = ((p == spChar) && pt.isPrefixOf (normalizeQuery xt)) := rfl
        have e2 : (p :: pt).isPrefixOf (nlChar :: xt)
            = ((p == nlChar) && pt.isPrefixOf xt) := rfl
        rw [hx, e1, e2, hp1, hp2]
        simp
      · have hx : normalizeQuery (x :: xt) = x :: normalizeQuery xt := by
          simp [normalizeQuery, hxn]
        have e1 : (p :: pt).isPrefixOf (x :: normalizeQuery xt)
            = ((p == x) && pt.isPrefixOf (normalizeQuery xt)) := rfl
        have e2 : (p :: pt).isPrefixOf (x :: xt)
            = ((p == x) && pt.isPrefixOf xt) := rfl
        rw [hx, e1, e2, ih h1' h2' xt]

theorem goContains_normalize (pat : Str) (h1 : nlChar ∉ pat) (h2 : spChar ∉ pat) :
    ∀ s : Str, goContains (normalizeQuery s) pat = goContains s pat := by
  intro s
  induction s with
  | nil => rfl
  | cons x xt ih =>
    have e1 : goContains (normalizeQuery (x :: xt)) pat
        = (pat.isPrefixOf (normalizeQuery (x :: xt)) || goContains (normalizeQuery xt) pat) := rfl
    have e2 : goContains (x :: xt) pat
        = (pat.isPrefixOf (x :: xt) || goContains xt pat) := rfl
    rw [e1, e2, isPrefixOf_normalize pat h1 h2 (x :: xt), ih]

theorem countSub_normalize (pat : Str) (h1 : nlChar ∉ pat) (h2 : spChar ∉ pat) :
    ∀ s : Str, countSub (normalizeQuery s) pat = countSub s pat := by
  intro s
  induction s with
  | nil => rfl
  | cons x xt ih =>
    have e1 : countSub (normalizeQuery (x :: xt)) pat
        = (if pat.isPrefixOf (normalizeQuery (x :: xt)) = true then 1 else 0)
            + countSub (normalizeQuery xt) pat := rfl
    have e2 : countSub (x :: xt) pat
        = (if pat.isPrefixOf (x :: xt) = true then 1 else 0) + countSub xt pat := rfl
    rw [e1, e2, isPrefixOf_normalize pat h1 h2 (x :: xt), ih]

theorem joinSp_append_single :
    ∀ ps : List Str, ps ≠ [] → ∀ x : Str,
      joinSp (ps ++ [x]) = joinSp ps ++ spChar :: x := by
  intro ps
  induction ps with
  | nil => intro h; exact absurd rfl h
  | cons p qs ih =>
    intro _ x
    cases qs with
    | nil => rfl
    | cons q rs =>
      have h1 : (p :: q :: rs) ++ [x] = p :: ((q :: rs) ++ [x]) := rfl
      rw [h1]
      have h2 : joinSp (p :: ((q :: rs) ++ [x])) = p ++ spChar :: joinSp ((q :: rs) ++ [x]) := rfl
      rw [h2, ih (by simp) x]
      simp [joinSp]

/-! ### Query builder lemmas -/

theorem makeQuery_ok_iff (query : Str) (ia ic il : Bool) (mu now : Int)
    (fmt3339 : Int → Str) (r : Str) :
    makeQuery query ia ic il mu now fmt3339 = Except.ok r ↔
      mqConds (normalizeQuery query) ia ic il
        ∧ r = joinSp (queryParts (normalizeQuery query) ia ic il mu now fmt3339) := by
  simp only [makeQuery, mqConds]
  split_ifs with h1 h2 h3 h4 h5 h6
  · exact iff_of_false id fun hc => hc.1.1 h1
  · exact iff_of_false id fun hc => hc.1.2.1 h2
  · exact iff_of_false id fun hc => hc.1.2.2.1 h3
  · exact iff_of_false id fun hc => hc.1.2.2.2.1 h4
  · exact iff_of_false id fun hc => hc.1.2.2.2.2.1 h5
  · exact iff_of_false id fun hc => hc.1.2.2.2.2.2 h6
  · constructor
    · intro h
      exact ⟨⟨h1, h2, h3, h4, h5, h6⟩, (Except.ok.inj h).symm⟩
    · rintro ⟨_, rfl⟩
      rfl

/-- A qualifier token never occurs inside the `updated:<=timestamp` part,
witnessed by a character of the token that the part cannot contain. -/
theorem goContains_updatedPart_false {fmt3339 : Int → Str}
    (hfmt : fmt3339WellFormed fmt3339) (pat : Str) (ch : Char) (hch : ch ∈ pat)
    (h1 : ch ∉ tokUpdatedLe) (h2 : ch ∉ rfcChars) (t : Int) :
    goContains (tokUpdatedLe ++ fmt3339 t) pat = false := by
  refine goContains_eq_false_of_char hch ?_
  intro hmem
  rcases List.mem_append.mp hmem with h | h
  · exact h1 h
  · exact h2 (hfmt t ch h)

theorem any_ite_singleton {P : Prop} [Decidable P] (x : Str) (f : Str → Bool) :
    (if P then [x] else []).any f = (decide P && f x) := by
  by_cases h : P <;> simp [h]

theorem sumMap_ite_singleton {P : Prop} [Decidable P] (x : Str) (f : Str → Nat) :
    ((if P then [x] else []).map f).sum = if P then f x else 0 := by
  by_cases h : P <;> simp [h]

/-! ### Batch runner lemmas -/

theorem processItemFrom_calls_le (cc : Str → Str → Int → Str → Option Str)
    (cm : Meta → Except Str Str) (i : Issue) (probs : List Str)
    (org repo : Str) (number : Int) :
    (processItemFrom cc cm i probs org repo number).2.length ≤ 1 := by
  unfold processItemFrom
  cases hcm : cm ⟨number, org, repo, i⟩ with
  | error e => simp
  | ok comment =>
    cases hcc : cc org repo number comment with
    | none => simp [hcc]
    | some e => simp [hcc]

theorem processItem_calls_le (cc : Str → Str → Int → Str → Option Str)
    (cm : Meta → Except Str Str) (i : Issue) :
    (processItem cc cm i).2.length ≤ 1 := by
  unfold processItem
  cases hp : parseHTMLURL i.htmlURL with
  | error e => exact processItemFrom_calls_le cc cm i _ _ _ _
  | ok v =>
    rcases v with ⟨org, repo, number⟩
    exact processItemFrom_calls_le cc cm i _ _ _ _

theorem runLoop_nonpos (cc : Str → Str → Int → Str → Option Str)
    (cm : Meta → Except Str Str) (c : Int) (hc : c ≤ 0) :
    ∀ (l : List Issue) (n : Nat), runLoop cc cm c n l = processAll cc cm l := by
  intro l
  induction l with
  | nil => intro n; rfl
  | cons i rest ih =>
    intro n
    have hcond : ¬(c > 0 ∧ (n : Int) = c) := fun h => absurd h.1 (not_lt.mpr hc)
    simp only [runLoop, processAll, if_neg hcond, ih]

theorem runLoop_pos (cc : Str → Str → Int → Str → Option Str)
    (cm : Meta → Except Str Str) (c : Int) (hc : 0 < c) :
    ∀ (l : List Issue) (n : Nat), (n : Int) ≤ c →
      runLoop cc cm c n l = processAll cc cm (l.take (c.toNat - n)) := by
  intro l
  induction l with
  | nil => intro n _; simp [runLoop, processAll]
  | cons i rest ih =>
    intro n hn
    by_cases heq : (n : Int) = c
    · have h0 : c.toNat - n = 0 := by omega
      simp [runLoop, heq, hc, h0, processAll]
    · have h1 : c.toNat - n = (c.toNat - (n + 1)) + 1 := by omega
      have hcond : ¬(c > 0 ∧ (n : Int) = c) := fun h => heq h.2
      rw [h1]
      simp only [runLoop, if_neg hcond, List.take_succ_cons, processAll]
      rw [ih (n + 1) (by omega)]

theorem processAll_calls_le (cc : Str → Str → Int → Str → Option Str)
    (cm : Meta → Except Str Str) : ∀ l : List Issue,
      (processAll cc cm l).2.length ≤ l.length := by
  intro l
  induction l with
  | nil => simp [processAll]
  | cons i rest ih =>
    have h := processItem_calls_le cc cm i
    simp only [processAll, List.length_append, List.length_cons]
    omega

/-! ### Shuffle lemmas -/

theorem getD_set_ne {α : Type} : ∀ (l : List α) (i j : Nat), i ≠ j → ∀ a d : α,
    (l.set i a).getD j d = l.getD j d := by
  intro l
  induction l with
  | nil => intro i j _ a d; rfl
  | cons x xt ih =>
    intro i j hne a d
    cases i with
    | zero =>
      cases j with
      | zero => exact absurd rfl hne
      | succ j' => rfl
    | succ i' =>
      cases j with
      | zero => rfl
      | succ j' => exact ih i' j' (fun h => hne (by rw [h])) a d

theorem set_getD_self {α : Type} : ∀ (l : List α) (i : Nat) (d : α),
    i < l.length → l.set i (l.getD i d) = l := by
  intro l
  induction l with
  | nil => intro i d h; simp at h
  | cons x xt ih =>
    intro i d h
    cases i with
    | zero => rfl
    | succ i' =>
      have h' : i' < xt.length := by
        simp only [List.length_cons] at h
        omega
      have e1 : (x :: xt).getD (i' + 1) d = xt.getD i' d := rfl
      have e2 : (x :: xt).set (i' + 1) (xt.getD i' d) = x :: xt.set i' (xt.getD i' d) := rfl
      rw [e1, e2, ih i' d h']

theorem count_cons_eq {α : Type} [DecidableEq α] (b x : α) (t : List α) :
    (b :: t).count x = t.count x + (if b = x then 1 else 0) := by
  by_cases h : b = x <;> simp [List.count_cons, h]

theorem count_set {α : Type} [DecidableEq α] :
    ∀ (l : List α) (i : Nat) (a d x : α), i < l.length →
      (l.set i a).count x + (if l.getD i d = x then 1 else 0)
        = l.count x + (if a = x then 1 else 0) := by
  intro l
  induction l with
  | nil => intro i a d x h; simp at h
  | cons b t ih =>
    intro i a d x h
    cases i with
    | zero =>
      have e1 : (b :: t).set 0 a = a :: t := rfl
      have e2 : (b :: t).getD 0 d = b := rfl
      rw [e1, e2, count_cons_eq a x t, count_cons_eq b x t]
      omega
    | succ i' =>
      have h' : i' < t.length := by
        simp only [List.length_cons] at h
        omega
      have e1 : (b :: t).set (i' + 1) a = b :: t.set i' a := rfl
      have e2 : (b :: t).getD (i' + 1) d = t.getD i' d := rfl
      have ih' := ih i' a d x h'
      rw [e1, e2, count_cons_eq b x (t.set i' a), count_cons_eq b x t]
      omega

theorem swapIdx_perm (l : List Issue) (i j : Nat)
    (hi : i < l.length) (hj : j < l.length) : (swapIdx l i j).Perm l := by
  rcases eq_or_ne i j with rfl | hne
  · have e : swapIdx l i i = l.set i (l.getD i default) := by
      unfold swapIdx
      rw [List.set_set]
    rw [e, set_getD_self l i default hi]
  · apply List.perm_iff_count.mpr
    intro x
    have egoal : swapIdx l i j = (l.set i (l.getD j default)).set j (l.getD i default) := rfl
    rw [egoal]
    have hj' : j < (l.set i (l.getD j default)).length := by
      rwa [List.length_set]
    have eq1 := count_set l i (l.getD j default) default x hi
    have eq2 := count_set (l.set i (l.getD j default)) j (l.getD i default) default x hj'
    rw [getD_set_ne l i j hne (l.getD j default) default] at eq2
    omega

theorem shuffleSteps_perm (draws : Nat → Nat) :
    ∀ (i : Nat) (l : List Issue), i < l.length → (shuffleSteps draws i l).Perm l := by
  intro i
  induction i with
  | zero => intro l _; exact List.Perm.refl l
  | succ i ih =>
    intro l hi
    have hj : draws (i + 1) % (i + 2) < l.length := by
      have hm : draws (i + 1) % (i + 2) < i + 2 := Nat.mod_lt _ (by omega)
      omega
    have hswap := swapIdx_perm l (i + 1) (draws (i + 1) % (i + 2)) hi hj
    have hlen : (swapIdx l (i + 1) (draws (i + 1) % (i + 2))).length = l.length :=
      hswap.length_eq
    have hstep : shuffleSteps draws (i + 1) l
        = shuffleSteps draws i (swapIdx l (i + 1) (draws (i + 1) % (i + 2))) := rfl
    rw [hstep]
    exact (ih _ (by omega)).trans hswap

/-- Fisher-Yates preserves the multiset of issues: for every outcome of
the PRNG, the shuffled list is a permutation of the input. -/
theorem shuffleGo_perm (draws : Nat → Nat) (l : List Issue) :
    (shuffleGo draws l).Perm l := by
  cases l with
  | nil => exact List.Perm.refl _
  | cons x xt =>
    unfold shuffleGo
    exact shuffleSteps_perm draws _ _ (by simp)

theorem shuffledIf_perm (random : Bool) (draws : Nat → Nat) (issues : List Issue) :
    (shuffledIf random draws issues).Perm issues := by
  unfold shuffledIf
  cases random with
  | false => exact List.Perm.refl _
  | true => simp [shuffleGo_perm]

theorem length_shuffledIf (random : Bool) (draws : Nat → Nat) (issues : List Issue) :
    (shuffledIf random draws issues).length = issues.length :=
  (shuffledIf_perm random draws issues).length_eq

/-- Unfolding of `run` when the search succeeds. -/
theorem run_eq_of_search_ok {c : Client} {org query sortStr : Str} {asc : Bool}
    {issues : List Issue}
    (h : c.findIssuesWithOrg org query sortStr asc = Except.ok issues)
    (random : Bool) (draws : Nat → Nat) (cm : Meta → Except Str Str) (ceiling : Int) :
    run c org query sortStr asc random draws cm ceiling
      = ((if (runLoop c.createComment cm ceiling 0 (shuffledIf random draws issues)).1.length > 0
          then Except.error (encouteredMsg
            (runLoop c.createComment cm ceiling 0 (shuffledIf random draws issues)).1)
          else Except.ok ()),
         (runLoop c.createComment cm ceiling 0 (shuffledIf random draws issues)).2) := by
  unfold run
  rw [h]

/-- Containment in the built query, expanded over its parts. -/
theorem goContains_queryParts (q : Str) (ia ic il : Bool) (mu now : Int)
    (fmt3339 : Int → Str) (T : Str) (hT : T ≠ []) (hsp : spChar ∉ T) :
    goContains (joinSp (queryParts q ia ic il mu now fmt3339)) T
      = (goContains q T
         || (decide (ia = false) && goContains tokArchivedFalse T)
         || (decide (ic = false) && goContains tokIsOpen T)
         || (decide (il = false) && goContains tokIsUnlocked T)
         || (decide (mu ≠ 0) && goContains (tokUpdatedLe ++ fmt3339 (now - mu)) T)) := by
  rw [goContains_joinSp hT hsp]
  by_cases hmu : mu = 0 <;> simp [queryParts, any_ite_singleton, Bool.or_assoc, hmu]

/-- Occurrence count in the built query, expanded over its parts. -/
theorem countSub_queryParts (q : Str) (ia ic il : Bool) (mu now : Int)
    (fmt3339 : Int → Str) (T : Str) (hT : T ≠ []) (hsp : spChar ∉ T) :
    countSub (joinSp (queryParts q ia ic il mu now fmt3339)) T
      = countSub q T
        + ((if ia = false then countSub tokArchivedFalse T else 0)
        + ((if ic = false then countSub tokIsOpen T else 0)
        + ((if il = false then countSub tokIsUnlocked T else 0)
        + (if mu ≠ 0 then countSub (tokUpdatedLe ++ fmt3339 (now - mu)) T else 0)))) := by
  rw [countSub_joinSp hT hsp]
  by_cases hmu : mu = 0 <;> simp [queryParts, sumMap_ite_singleton, Nat.add_assoc, hmu]

/-! ### Claim theorems: batch runner -/

/-- C2: for every positive ceiling N and search result list longer than N,
the loop of `run` processes exactly the first N items of the (possibly
shuffled) list — it equals the ceiling-free processing of `take N` —
stopping adds no failure message, and the run makes at most N
comment-creation calls. -/
theorem c2_ceiling_bounds (c : Client) (org query sortStr : Str) (asc random : Bool)
    (draws : Nat → Nat) (cm : Meta → Except Str Str) (ceiling : Int) (issues : List Issue)
    (h : c.findIssuesWithOrg org query sortStr asc = Except.ok issues)
    (hpos : 0 < ceiling) (hlen : ceiling < (issues.length : Int)) :
    runLoop c.createComment cm ceiling 0 (shuffledIf random draws issues)
      = processAll c.createComment cm ((shuffledIf random draws issues).take ceiling.toNat)
    ∧ ((shuffledIf random draws issues).take ceiling.toNat).length = ceiling.toNat
    ∧ (run c org query sortStr asc random draws cm ceiling).2.length ≤ ceiling.toNat := by
  have hloop := runLoop_pos c.createComment cm ceiling hpos
    (shuffledIf random draws issues) 0 (by omega)
  rw [Nat.sub_zero] at hloop
  have hlen' := length_shuffledIf random draws issues
  refine ⟨hloop, ?_, ?_⟩
  · rw [List.length_take]
    omega
  · rw [run_eq_of_search_ok h random draws cm ceiling]
    show (runLoop c.createComment cm ceiling 0 (shuffledIf random draws issues)).2.length
      ≤ ceiling.toNat
    rw [hloop]
    have h1 := processAll_calls_le c.createComment cm
      ((shuffledIf random draws issues).take ceiling.toNat)
    have h2 : ((shuffledIf random draws issues).take ceiling.toNat).length
        ≤ ceiling.toNat := by
      rw [List.length_take]
      omega
    omega

/-- Witness for C2 at ceiling 2 over a three-element result list. -/
theorem c2_ceiling_bounds_witness :
    clientThree.findIssuesWithOrg emptyStr emptyStr emptyStr false
        = Except.ok [issue1, issue2, issue3]
    ∧ (0 : Int) < 2
    ∧ (2 : Int) < (([issue1, issue2, issue3] : List Issue).length : Int)
    ∧ (runLoop clientThree.createComment (literalCommenter testComment) 2 0
          (shuffledIf false draws0 [issue1, issue2, issue3])
        = processAll clientThree.createComment (literalCommenter testComment)
            ((shuffledIf false draws0 [issue1, issue2, issue3]).take (2 : Int).toNat)
      ∧ ((shuffledIf false draws0 [issue1, issue2, issue3]).take (2 : Int).toNat).length
          = (2 : Int).toNat
      ∧ (run clientThree emptyStr emptyStr emptyStr false false draws0
            (literalCommenter testComment) 2).2.length ≤ (2 : Int).toNat) :=
  ⟨rfl, by decide, by decide,
    c2_ceiling_bounds clientThree emptyStr emptyStr emptyStr false false draws0
      (literalCommenter testComment) 2 [issue1, issue2, issue3] rfl (by decide) (by decide)⟩

/-- C7: when the client's search capability fails, `run` returns that
error wrapped with the `search failed: ` context and makes no
comment-creation call; the result does not depend on the
comment-producing function (it is never invoked). -/
theorem c7_search_failure (c : Client) (org query sortStr : Str) (asc random : Bool)
    (draws : Nat → Nat) (cm : Meta → Except Str Str) (ceiling : Int) (e : Str)
    (h : c.findIssuesWithOrg org query sortStr asc = Except.error e) :
    run c org query sortStr asc random draws cm ceiling
      = (Except.error (searchFailedPre ++ e), []) := by
  unfold run
  rw [h]

/-- Witness for C7 on a client whose search fails with `boom`. -/
theorem c7_search_failure_witness :
    clientSearchFail.findIssuesWithOrg emptyStr emptyStr emptyStr false
        = Except.error searchErr
    ∧ run clientSearchFail emptyStr emptyStr emptyStr false false draws0
        (literalCommenter testComment) 3
      = (Except.error (searchFailedPre ++ searchErr), []) :=
  ⟨rfl, c7_search_failure clientSearchFail emptyStr emptyStr emptyStr false false draws0
    (literalCommenter testComment) 3 searchErr rfl⟩

/-- C8: after a successful search, `run` returns success exactly when the
loop recorded no failure message, and when failures were recorded it
returns the aggregate error carrying their count and the full list. -/
theorem c8_aggregation (c : Client) (org query sortStr : Str) (asc random : Bool)
    (draws : Nat → Nat) (cm : Meta → Except Str Str) (ceiling : Int) (issues : List Issue)
    (h : c.findIssuesWithOrg org query sortStr asc = Except.ok issues) :
    ((run c org query sortStr asc random draws cm ceiling).1 = Except.ok ()
      ↔ (runLoop c.createComment cm ceiling 0 (shuffledIf random draws issues)).1 = [])
    ∧ ((runLoop c.createComment cm ceiling 0 (shuffledIf random draws issues)).1 ≠ [] →
        (run c org query sortStr asc random draws cm ceiling).1
          = Except.error (encouteredMsg
              (runLoop c.createComment cm ceiling 0 (shuffledIf random draws issues)).1)) := by
  have hfst : (run c org query sortStr asc random draws cm ceiling).1
      = if (runLoop c.createComment cm ceiling 0 (shuffledIf random draws issues)).1.length > 0
        then Except.error (encouteredMsg
          (runLoop c.createComment cm ceiling 0 (shuffledIf random draws issues)).1)
        else Except.ok () := by
    rw [run_eq_of_search_ok h random draws cm ceiling]
  constructor
  · rw [hfst]
    by_cases hne : (runLoop c.createComment cm ceiling 0 (shuffledIf random draws issues)).1 = []
    · simp [hne]
    · have hlen : (runLoop c.createComment cm ceiling 0 (shuffledIf random draws issues)).1.length > 0 :=
        List.length_pos.mpr hne
      simp [if_pos hlen, hne]
  · intro hne
    have hlen : (runLoop c.createComment cm ceiling 0 (shuffledIf random draws issues)).1.length > 0 :=
      List.length_pos.mpr hne
    rw [hfst, if_pos hlen]

/-- Witness for C8 on a run with one malformed URL (one failure recorded). -/
theorem c8_aggregation_witness :
    clientBad.findIssuesWithOrg emptyStr emptyStr emptyStr false
        = Except.ok [issueBad, issue2]
    ∧ (((run clientBad emptyStr emptyStr emptyStr false false draws0
          (literalCommenter testComment) 0).1 = Except.ok ()
        ↔ (runLoop clientBad.createComment (literalCommenter testComment) 0 0
            (shuffledIf false draws0 [issueBad, issue2])).1 = [])
      ∧ ((runLoop clientBad.createComment (literalCommenter testComment) 0 0
            (shuffledIf false draws0 [issueBad, issue2])).1 ≠ [] →
          (run clientBad emptyStr emptyStr emptyStr false false draws0
            (literalCommenter testComment) 0).1
            = Except.error (encouteredMsg
                (runLoop clientBad.createComment (literalCommenter testComment) 0 0
                  (shuffledIf false draws0 [issueBad, issue2])).1))) :=
  ⟨rfl, c8_aggregation clientBad emptyStr emptyStr emptyStr false false draws0
    (literalCommenter testComment) 0 [issueBad, issue2] rfl⟩

/-- C9: with `--random` set, the list `run` iterates is `shuffleGo draws
issues`, and for every PRNG outcome it is a permutation of the search
results (nothing dropped, nothing duplicated); under a positive ceiling
the run still makes at most `ceiling` comment-creation calls. -/
theorem c9_random_permutation (c : Client) (org query sortStr : Str) (asc : Bool)
    (draws : Nat → Nat) (cm : Meta → Except Str Str) (ceiling : Int) (issues : List Issue)
    (h : c.findIssuesWithOrg org query sortStr asc = Except.ok issues) :
    (shuffleGo draws issues).Perm issues
    ∧ (0 < ceiling →
        (run c org query sortStr asc true draws cm ceiling).2.length ≤ ceiling.toNat) := by
  refine ⟨shuffleGo_perm draws issues, ?_⟩
  intro hpos
  rw [run_eq_of_search_ok h true draws cm ceiling]
  show (runLoop c.createComment cm ceiling 0 (shuffledIf true draws issues)).2.length
    ≤ ceiling.toNat
  rw [runLoop_pos c.createComment cm ceiling hpos (shuffledIf true draws issues) 0 (by omega),
    Nat.sub_zero]
  have h1 := processAll_calls_le c.createComment cm
    ((shuffledIf true draws issues).take ceiling.toNat)
  have h2 : ((shuffledIf true draws issues).take ceiling.toNat).length ≤ ceiling.toNat := by
    rw [List.length_take]
    omega
  omega

/-- Witness for C9 on the three-element fixture with ceiling 2. -/
theorem c9_random_permutation_witness :
    clientThree.findIssuesWithOrg emptyStr emptyStr emptyStr false
        = Except.ok [issue1, issue2, issue3]
    ∧ ((shuffleGo draws0 [issue1, issue2, issue3]).Perm [issue1, issue2, issue3]
      ∧ ((0 : Int) < 2 →
          (run clientThree emptyStr emptyStr emptyStr false true draws0
            (literalCommenter testComment) 2).2.length ≤ (2 : Int).toNat)) :=
  ⟨rfl, c9_random_permutation clientThree emptyStr emptyStr emptyStr false draws0
    (literalCommenter testComment) 2 [issue1, issue2, issue3] rfl⟩

/-- C10: a negative ceiling behaves exactly like ceiling 0 (unlimited):
the early-stop branch is never taken and every item of the list is
processed. -/
theorem c10_negative_ceiling (c : Client) (org query sortStr : Str) (asc random : Bool)
    (draws : Nat → Nat) (cm : Meta → Except Str Str) (ceiling : Int)
    (hc : ceiling < 0) :
    run c org query sortStr asc random draws cm ceiling
        = run c org query sortStr asc random draws cm 0
    ∧ ∀ (l : List Issue),
        runLoop c.createComment cm ceiling 0 l = processAll c.createComment cm l := by
  constructor
  · cases hs : c.findIssuesWithOrg org query sortStr asc with
    | error e =>
      unfold run
      rw [hs]
    | ok issues =>
      rw [run_eq_of_search_ok hs random draws cm ceiling,
        run_eq_of_search_ok hs random draws cm 0,
        runLoop_nonpos c.createComment cm ceiling (le_of_lt hc)
          (shuffledIf random draws issues) 0,
        runLoop_nonpos c.createComment cm 0 (le_refl 0)
          (shuffledIf random draws issues) 0]
  · intro l
    exact runLoop_nonpos c.createComment cm ceiling (le_of_lt hc) l 0

/-- Witness for C10 at ceiling -1. -/
theorem c10_negative_ceiling_witness :
    (-1 : Int) < 0
    ∧ (run clientThree emptyStr emptyStr emptyStr false false draws0
          (literalCommenter testComment) (-1)
        = run clientThree emptyStr emptyStr emptyStr false false draws0
          (literalCommenter testComment) 0
      ∧ ∀ (l : List Issue),
          runLoop clientThree.createComment (literalCommenter testComment) (-1) 0 l
            = processAll clientThree.createComment (literalCommenter testComment) l) :=
  ⟨by decide, c10_negative_ceiling clientThree emptyStr emptyStr emptyStr false false draws0
    (literalCommenter testComment) (-1) (by decide)⟩

/-! ### Claim theorems: query builder -/

/-- C3 counterexample: the claim asserts that `makeQuery` with
includeArchived=true succeeds on every raw query containing
`archived:true` (and not `archived:false`), but such a query can still be
rejected by another toggle's conflict check: `archived:true is:closed`
with includeClosed=false yields the closed-conflict error. -/
theorem c3_counterexample :
    goContains qC3cex tokArchivedTrue = true
    ∧ goContains qC3cex tokArchivedFalse = false
    ∧ makeQuery qC3cex true false false 0 0 fmt0 = Except.error errNeedClosed := by
  decide

/-- C3 (amended): a raw query containing `archived:true` is rejected with
the archived conflict error when includeArchived=false; with
includeArchived=true, provided the query does not contain
`archived:false` and does not conflict with the closed/locked toggles,
`makeQuery` succeeds and its result does not contain `archived:false`. -/
theorem c3_archived_toggle (q : Str) (ic il : Bool) (mu now : Int)
    (fmt3339 : Int → Str) (hfmt : fmt3339WellFormed fmt3339) :
    (goContains q tokArchivedTrue = true →
      makeQuery q false ic il mu now fmt3339 = Except.error errNeedArchived)
    ∧ (goContains q tokArchivedFalse = false →
        (ic = false → goContains q tokIsClosed = false) →
        (ic = true → goContains q tokIsOpen = false) →
        (il = false → goContains q tokIsLocked = false) →
        (il = true → goContains q tokIsUnlocked = false) →
        ∃ r : Str, makeQuery q true ic il mu now fmt3339 = Except.ok r
          ∧ goContains r tokArchivedFalse = false) := by
  constructor
  · intro h1
    have hn : goContains (normalizeQuery q) tokArchivedTrue = true := by
      rw [goContains_normalize tokArchivedTrue (by decide) (by decide) q]
      exact h1
    simp [makeQuery, hn]
  · intro hAF hc1 hc2 hl1 hl2
    have nAF := goContains_normalize tokArchivedFalse (by decide) (by decide) q
    have nIC := goContains_normalize tokIsClosed (by decide) (by decide) q
    have nOpen := goContains_normalize tokIsOpen (by decide) (by decide) q
    have nIL := goContains_normalize tokIsLocked (by decide) (by decide) q
    have nIU := goContains_normalize tokIsUnlocked (by decide) (by decide) q
    refine ⟨joinSp (queryParts (normalizeQuery q) true ic il mu now fmt3339),
      (makeQuery_ok_iff q true ic il mu now fmt3339 _).mpr ⟨⟨?_, ?_, ?_, ?_, ?_, ?_⟩, rfl⟩, ?_⟩
    · rintro ⟨hcontra, _⟩
      exact Bool.noConfusion hcontra
    · rintro ⟨_, hcontra⟩
      rw [nAF, hAF] at hcontra
      exact Bool.noConfusion hcontra
    · rintro ⟨hicf, hcontra⟩
      rw [nIC, hc1 hicf] at hcontra
      exact Bool.noConfusion hcontra
    · rintro ⟨hict, hcontra⟩
      rw [nOpen, hc2 hict] at hcontra
      exact Bool.noConfusion hcontra
    · rintro ⟨hilf, hcontra⟩
      rw [nIL, hl1 hilf] at hcontra
      exact Bool.noConfusion hcontra
    · rintro ⟨hilt, hcontra⟩
      rw [nIU, hl2 hilt] at hcontra
      exact Bool.noConfusion hcontra
    · rw [goContains_queryParts (normalizeQuery q) true ic il mu now fmt3339 tokArchivedFalse
        (by decide) (by decide), nAF]
      simp [hAF,
        goContains_updatedPart_false hfmt tokArchivedFalse 'f' (by decide) (by decide)
          (by decide) (now - mu),
        show goContains tokIsOpen tokArchivedFalse = false from by decide,
        show goContains tokIsUnlocked tokArchivedFalse = false from by decide]

/-- Witness for C3 on the raw query `archived:true`. -/
theorem c3_archived_toggle_witness :
    fmt3339WellFormed fmt0
    ∧ ((goContains tokArchivedTrue tokArchivedTrue = true →
          makeQuery tokArchivedTrue false false false 0 0 fmt0
            = Except.error errNeedArchived)
      ∧ (goContains tokArchivedTrue tokArchivedFalse = false →
          (false = false → goContains tokArchivedTrue tokIsClosed = false) →
          (false = true → goContains tokArchivedTrue tokIsOpen = false) →
          (false = false → goContains tokArchivedTrue tokIsLocked = false) →
          (false = true → goContains tokArchivedTrue tokIsUnlocked = false) →
          ∃ r : Str, makeQuery tokArchivedTrue true false false 0 0 fmt0 = Except.ok r
            ∧ goContains r tokArchivedFalse = false)) :=
  ⟨fmt0_wellFormed, c3_archived_toggle tokArchivedTrue false false 0 0 fmt0 fmt0_wellFormed⟩

/-- C4 counterexample: with a toggle enabled the built query may contain
neither qualifier of the toggle's pair: `is:issue` with
includeArchived=true succeeds and the result has no archived qualifier at
all, refuting "never neither". -/
theorem c4_counterexample :
    makeQuery qIsIssue true false false 0 0 fmt0 = Except.ok rC4cex
    ∧ goContains rC4cex tokArchivedTrue = false
    ∧ goContains rC4cex tokArchivedFalse = false := by
  decide

/-- C4 (amended): whenever `makeQuery` succeeds, each disabled toggle's
pair has exactly the restrictive member present (and the opposing member
absent); for each enabled toggle the restrictive member is absent and the
positive member appears iff the raw query asserted it — so an enabled
toggle's pair may have neither member present. -/
theorem c4_toggle_pairs (q : Str) (ia ic il : Bool) (mu now : Int)
    (fmt3339 : Int → Str) (hfmt : fmt3339WellFormed fmt3339) (r : Str)
    (h : makeQuery q ia ic il mu now fmt3339 = Except.ok r) :
    ((ia = false → goContains r tokArchivedFalse = true ∧ goContains r tokArchivedTrue = false)
      ∧ (ia = true → goContains r tokArchivedFalse = false
          ∧ goContains r tokArchivedTrue = goContains q tokArchivedTrue))
    ∧ ((ic = false → goContains r tokIsOpen = true ∧ goContains r tokIsClosed = false)
      ∧ (ic = true → goContains r tokIsOpen = false
          ∧ goContains r tokIsClosed = goContains q tokIsClosed))
    ∧ ((il = false → goContains r tokIsUnlocked = true ∧ goContains r tokIsLocked = false)
      ∧ (il = true → goContains r tokIsUnlocked = false
          ∧ goContains r tokIsLocked = goContains q tokIsLocked)) := by
  obtain ⟨⟨h1, h2, h3, h4, h5, h6⟩, hr⟩ := (makeQuery_ok_iff q ia ic il mu now fmt3339 r).mp h
  subst hr
  have nAT := goContains_normalize tokArchivedTrue (by decide) (by decide) q
  have nIC := goContains_normalize tokIsClosed (by decide) (by decide) q
  have nIL := goContains_normalize tokIsLocked (by decide) (by decide) q
  have uAT := goContains_updatedPart_false hfmt tokArchivedTrue 'r' (by decide) (by decide)
    (by decide) (now - mu)
  have uAF := goContains_updatedPart_false hfmt tokArchivedFalse 'f' (by decide) (by decide)
    (by decide) (now - mu)
  have uIC := goContains_updatedPart_false hfmt tokIsClosed 'i' (by decide) (by decide)
    (by decide) (now - mu)
  have uOpen := goContains_updatedPart_false hfmt tokIsOpen 'i' (by decide) (by decide)
    (by decide) (now - mu)
  have uIL := goContains_updatedPart_false hfmt tokIsLocked 'i' (by decide) (by decide)
    (by decide) (now - mu)
  have uIU := goContains_updatedPart_false hfmt tokIsUnlocked 'i' (by decide) (by decide)
    (by decide) (now - mu)
  refine ⟨⟨?_, ?_⟩, ⟨?_, ?_⟩, ⟨?_, ?_⟩⟩
  · intro hia
    subst hia
    have cAT : goContains (normalizeQuery q) tokArchivedTrue = false := by
      cases hb : goContains (normalizeQuery q) tokArchivedTrue with
      | false => rfl
      | true => exact absurd ⟨rfl, hb⟩ h1
    constructor
    · rw [goContains_queryParts (normalizeQuery q) false ic il mu now fmt3339 tokArchivedFalse
        (by decide) (by decide)]
      simp [show goContains tokArchivedFalse tokArchivedFalse = true from by decide]
    · rw [goContains_queryParts (normalizeQuery q) false ic il mu now fmt3339 tokArchivedTrue
        (by decide) (by decide)]
      simp [cAT, uAT,
        show goContains tokArchivedFalse tokArchivedTrue = false from by decide,
        show goContains tokIsOpen tokArchivedTrue = false from by decide,
        show goContains tokIsUnlocked tokArchivedTrue = false from by decide]
  · intro hia
    subst hia
    have cAF : goContains (normalizeQuery q) tokArchivedFalse = false := by
      cases hb : goContains (normalizeQuery q) tokArchivedFalse with
      | false => rfl
      | true => exact absurd ⟨rfl, hb⟩ h2
    constructor
    · rw [goContains_queryParts (normalizeQuery q) true ic il mu now fmt3339 tokArchivedFalse
        (by decide) (by decide)]
      simp [cAF, uAF,
        show goContains tokIsOpen tokArchivedFalse = false from by decide,
        show goContains tokIsUnlocked tokArchivedFalse = false from by decide]
    · rw [goContains_queryParts (normalizeQuery q) true ic il mu now fmt3339 tokArchivedTrue
        (by decide) (by decide), nAT]
      simp [uAT,
        show goContains tokArchivedFalse tokArchivedTrue = false from by decide,
        show goContains tokIsOpen tokArchivedTrue = false from by decide,
        show goContains tokIsUnlocked tokArchivedTrue = false from by decide]
  · intro hic
    subst hic
    have cIC : goContains (normalizeQuery q) tokIsClosed = false := by
      cases hb : goContains (normalizeQuery q) tokIsClosed with
      | false => rfl
      | true => exact absurd ⟨rfl, hb⟩ h3
    constructor
    · rw [goContains_queryParts (normalizeQuery q) ia false il mu now fmt3339 tokIsOpen
        (by decide) (by decide)]
      simp [show goContains tokIsOpen tokIsOpen = true from by decide]
    · rw [goContains_queryParts (normalizeQuery q) ia false il mu now fmt3339 tokIsClosed
        (by decide) (by decide)]
      simp [cIC, uIC,
        show goContains tokArchivedFalse tokIsClosed = false from by decide,
        show goContains tokIsOpen tokIsClosed = false from by decide,
        show goContains tokIsUnlocked tokIsClosed = false from by decide]
  · intro hic
    subst hic
    have cOpen : goContains (normalizeQuery q) tokIsOpen = false := by
      cases hb : goContains (normalizeQuery q) tokIsOpen with
      | false => rfl
      | true => exact absurd ⟨rfl, hb⟩ h4
    constructor
    · rw [goContains_queryParts (normalizeQuery q) ia true il mu now fmt3339 tokIsOpen
        (by decide) (by decide)]
      simp [cOpen, uOpen,
        show goContains tokArchivedFalse tokIsOpen = false from by decide,
        show goContains tokIsUnlocked tokIsOpen = false from by decide]
    · rw [goContains_queryParts (normalizeQuery q) ia true il mu now fmt3339 tokIsClosed
        (by decide) (by decide), nIC]
      simp [uIC,
        show goContains tokArchivedFalse tokIsClosed = false from by decide,
        show goContains tokIsOpen tokIsClosed = false from by decide,
        show goContains tokIsUnlocked tokIsClosed = false from by decide]
  · intro hil
    subst hil
    have cIL : goContains (normalizeQuery q) tokIsLocked = false := by
      cases hb : goContains (normalizeQuery q) tokIsLocked with
      | false => rfl
      | true => exact absurd ⟨rfl, hb⟩ h5
    constructor
    · rw [goContains_queryParts (normalizeQuery q) ia ic false mu now fmt3339 tokIsUnlocked
        (by decide) (by decide)]
      simp [show goContains tokIsUnlocked tokIsUnlocked = true from by decide]
    · rw [goContains_queryParts (normalizeQuery q) ia ic false mu now fmt3339 tokIsLocked
        (by decide) (by decide)]
      simp [cIL, uIL,
        show goContains tokArchivedFalse tokIsLocked = false from by decide,
        show goContains tokIsOpen tokIsLocked = false from by decide,
        show goContains tokIsUnlocked tokIsLocked = false from by decide]
  · intro hil
    subst hil
    have cIU : goContains (normalizeQuery q) tokIsUnlocked = false := by
      cases hb : goContains (normalizeQuery q) tokIsUnlocked with
      | false => rfl
      | true => exact absurd ⟨rfl, hb⟩ h6
    constructor
    · rw [goContains_queryParts (normalizeQuery q) ia ic true mu now fmt3339 tokIsUnlocked
        (by decide) (by decide)]
      simp [cIU, uIU,
        show goContains tokArchivedFalse tokIsUnlocked = false from by decide,
        show goContains tokIsOpen tokIsUnlocked = false from by decide]
    · rw [goContains_queryParts (normalizeQuery q) ia ic true mu now fmt3339 tokIsLocked
        (by decide) (by decide), nIL]
      simp [uIL,
        show goContains tokArchivedFalse tokIsLocked = false from by decide,
        show goContains tokIsOpen tokIsLocked = false from by decide,
        show goContains tokIsUnlocked tokIsLocked = false from by decide]

/-- Witness for C4 on `is:issue` with all toggles disabled. -/
theorem c4_toggle_pairs_witness :
    fmt3339WellFormed fmt0
    ∧ makeQuery qIsIssue false false false 0 0 fmt0 = Except.ok rC4w
    ∧ (((false = false → goContains rC4w tokArchivedFalse = true
            ∧ goContains rC4w tokArchivedTrue = false)
        ∧ (false = true → goContains rC4w tokArchivedFalse = false
            ∧ goContains rC4w tokArchivedTrue = goContains qIsIssue tokArchivedTrue))
      ∧ ((false = false → goContains rC4w tokIsOpen = true
            ∧ goContains rC4w tokIsClosed = false)
        ∧ (false = true → goContains rC4w tokIsOpen = false
            ∧ goContains rC4w tokIsClosed = goContains qIsIssue tokIsClosed))
      ∧ ((false = false → goContains rC4w tokIsUnlocked = true
            ∧ goContains rC4w tokIsLocked = false)
        ∧ (false = true → goContains rC4w tokIsUnlocked = false
            ∧ goContains rC4w tokIsLocked = goContains qIsIssue tokIsLocked))) :=
  ⟨fmt0_wellFormed, by decide,
    c4_toggle_pairs qIsIssue false false false 0 0 fmt0 fmt0_wellFormed rC4w (by decide)⟩

/-- C5 counterexample: the claim says minUpdated=0 gives a result with no
`updated:<=` qualifier, but a raw query that itself carries one passes the
toggle checks and keeps it. -/
theorem c5_counterexample :
    makeQuery qC5cex false false false 0 0 fmt0 = Except.ok rC5cex
    ∧ countSub rC5cex tokUpdatedLe ≠ 0 := by
  decide

/-- C5 (amended): for a raw query that does not itself contain
`updated:<=`, whenever `makeQuery` succeeds: with minUpdated zero the
result has no `updated:<=` occurrence; with minUpdated nonzero it has
exactly one, and the result ends with the qualifier
`updated:<=` followed by the RFC3339 rendering of `now - minUpdated`. -/
theorem c5_updated_filter (q : Str) (ia ic il : Bool) (mu now : Int)
    (fmt3339 : Int → Str) (hfmt : fmt3339WellFormed fmt3339) (r : Str)
    (h : makeQuery q ia ic il mu now fmt3339 = Except.ok r)
    (hq : goContains q tokUpdatedLe = false) :
    (mu = 0 → countSub r tokUpdatedLe = 0)
    ∧ (mu ≠ 0 → countSub r tokUpdatedLe = 1
        ∧ ∃ pre : Str, r = pre ++ spChar :: (tokUpdatedLe ++ fmt3339 (now - mu))) := by
  obtain ⟨_, hr⟩ := (makeQuery_ok_iff q ia ic il mu now fmt3339 r).mp h
  subst hr
  have hnq : countSub (normalizeQuery q) tokUpdatedLe = 0 := by
    rw [countSub_normalize tokUpdatedLe (by decide) (by decide) q]
    exact (goContains_eq_false_iff (by decide) q).mp hq
  have hcount := countSub_queryParts (normalizeQuery q) ia ic il mu now fmt3339 tokUpdatedLe
    (by decide) (by decide)
  constructor
  · intro hmu
    rw [hcount, hnq]
    simp [hmu,
      show countSub tokArchivedFalse tokUpdatedLe = 0 from by decide,
      show countSub tokIsOpen tokUpdatedLe = 0 from by decide,
      show countSub tokIsUnlocked tokUpdatedLe = 0 from by decide]
  · intro hmu
    have hone : countSub (tokUpdatedLe ++ fmt3339 (now - mu)) tokUpdatedLe = 1 := by
      have e : tokUpdatedLe = 'u' :: "pdated:<=".toList := by decide
      rw [e]
      refine countSub_self_append (by decide) ?_
      intro hmem
      exact absurd (hfmt (now - mu) 'u' hmem) (by decide)
    constructor
    · rw [hcount, hnq]
      simp [hmu, hone,
        show countSub tokArchivedFalse tokUpdatedLe = 0 from by decide,
        show countSub tokIsOpen tokUpdatedLe = 0 from by decide,
        show countSub tokIsUnlocked tokUpdatedLe = 0 from by decide]
    · refine ⟨joinSp ([normalizeQuery q]
          ++ (if ia = false then [tokArchivedFalse] else [])
          ++ (if ic = false then [tokIsOpen] else [])
          ++ (if il = false then [tokIsUnlocked] else [])), ?_⟩
      have hqp : queryParts (normalizeQuery q) ia ic il mu now fmt3339
          = ([normalizeQuery q]
              ++ (if ia = false then [tokArchivedFalse] else [])
              ++ (if ic = false then [tokIsOpen] else [])
              ++ (if il = false then [tokIsUnlocked] else []))
            ++ [tokUpdatedLe ++ fmt3339 (now - mu)] := by
        simp [queryParts, hmu, List.append_assoc]
      rw [hqp, joinSp_append_single _ (by simp) _]

/-- Witness for C5 on `is:issue` with a 7-unit age filter at time 100. -/
theorem c5_updated_filter_witness :
    fmt3339WellFormed fmt0
    ∧ makeQuery qIsIssue false false false 7 100 fmt0 = Except.ok rC5w
    ∧ goContains qIsIssue tokUpdatedLe = false
    ∧ (((7 : Int) = 0 → countSub rC5w tokUpdatedLe = 0)
      ∧ ((7 : Int) ≠ 0 → countSub rC5w tokUpdatedLe = 1
          ∧ ∃ pre : Str, rC5w = pre ++ spChar :: (tokUpdatedLe ++ fmt0 (100 - 7)))) :=
  ⟨fmt0_wellFormed, by decide, by decide,
    c5_updated_filter qIsIssue false false false 7 100 fmt0 fmt0_wellFormed rC5w
      (by decide) (by decide)⟩

/-! ### Claim theorems: end-to-end and the parse-failure fallthrough -/

/-- C6: end-to-end — the query `is:issue label:bug` with all inclusion
toggles off and no age filter builds exactly
`is:issue label:bug archived:false is:open is:unlocked`, and a run over
two matching issues with ceiling 2 comments on both with the literal
configured comment and returns success. -/
theorem c6_end_to_end (now : Int) (fmt3339 : Int → Str) :
    makeQuery qC6 false false false 0 now fmt3339 = Except.ok rC6
    ∧ run clientTwo emptyStr rC6 emptyStr false false draws0
        (literalCommenter testComment) 2
      = (Except.ok (), [(orgA, repoA, 1, testComment), (orgB, repoB, 2, testComment)]) := by
  constructor
  · rfl
  · rfl

/-- C1 (code bug): on a parse failure the loop records exactly one failure
message but does NOT skip the item — it falls through and invokes the
comment-producing function and `CreateComment` with the zero values
`("", "", 0)`, contrary to the claim; the subsequent item is still
processed.  Evaluated here on a two-item run whose first URL is
malformed. -/
theorem c1_parse_failure_fallthrough :
    run clientBad emptyStr emptyStr emptyStr false false draws0
        (literalCommenter testComment) 0
      = (Except.error (encouteredMsg
            [msgFailedParse issueBad.htmlURL (failedToParseMsg issueBad.htmlURL)]),
         [(emptyStr, emptyStr, 0, testComment), (orgB, repoB, 2, testComment)]) := by
  rfl

end Commenter
